import Mathlib

/-!
Verification of the `tower-etag-cache` ConstLru cache provider
(`src/tower-etag-cache/src/const_lru_provider/mod.rs` and
`src/tower-etag-cache/src/base64_blake3_body_etag.rs`).

The provider keeps a bounded LRU table mapping a cache key to
`(etag token, last-modified SystemTime)`.  `on_get_request` answers a
conditional request with `Hit`/`Miss`; `on_put_request` collects the
response body, computes the etag via `base64_blake3_body_etag`, updates
the table and decorates the response headers.

Modelling conventions:
  * bytes are `Nat`s, byte strings are `List Nat`;
  * `SystemTime` is a `Nat` (seconds since the Unix epoch);
  * the blake3 digest (external crate) is an abstract function
    `List Nat → List Nat` carried in a context record;
  * the key deriver (`SimpleEtagCacheKey`, outside `src/`) is opaque: a
    request carries its derived key, and the variance headers the key
    deriver appends in `set_response_headers` are an abstract list in the
    same context record.
-/

set_option autoImplicit false

namespace TowerEtagCache

/-- Opaque cache key produced by the external key deriver
(`SimpleEtagCacheKey`); the provider only compares keys for equality. -/
abbrev Key := Nat

/-- `SystemTime`, modelled as whole seconds since the Unix epoch. -/
abbrev Time := Nat

/-- Value stored in the `ConstLru`: `(String, SystemTime)` — the quoted
etag token and the time it was last set. -/
abbrev Entry := String × Time

/-! ### RFC 2822 date formatting (`time` crate, `Rfc2822` well-known format) -/

/-- Leap-year predicate of the proleptic Gregorian calendar. -/
def isLeap (y : Nat) : Bool :=
  (y % 4 == 0 && y % 100 != 0) || y % 400 == 0

/-- Number of days in year `y`. -/
def daysInYear (y : Nat) : Nat := if isLeap y then 366 else 365

/-- Month lengths for year `y`, January first. -/
def monthLengths (y : Nat) : List Nat :=
  [31, if isLeap y then 29 else 28, 31, 30, 31, 30, 31, 31, 30, 31, 30, 31]

/-- Starting from year `y` with `d` whole days remaining, find the year
containing the day and the day-of-year offset. -/
def findYear (y d : Nat) : Nat × Nat :=
  if _h : daysInYear y ≤ d then
    findYear (y + 1) (d - daysInYear y)
  else
    (y, d)
termination_by d
decreasing_by
  have h1 : 0 < daysInYear y := by unfold daysInYear; split <;> omega
  omega

/-- Walk the month-length list to find the 1-based month and day. -/
def findMonth (ms : List Nat) (m d : Nat) : Nat × Nat :=
  match ms with
  | [] => (m, d + 1)
  | len :: rest =>
    if d < len then (m, d + 1) else findMonth rest (m + 1) (d - len)

/-- Civil date `(year, month, day)` of the day number `d` counted from
1970-01-01. -/
def civilFromDays (d : Nat) : Nat × Nat × Nat :=
  let yd := findYear 1970 d
  let md := findMonth (monthLengths yd.1) 1 yd.2
  (yd.1, md.1, md.2)

/-- Three-letter weekday name for day number `d` since the epoch
(1970-01-01 was a Thursday). -/
def weekdayName (d : Nat) : String :=
  [ "Thu", "Fri", "Sat", "Sun", "Mon", "Tue", "Wed" ].getD (d % 7) "Thu"

/-- Three-letter month name, 1-based. -/
def monthName (m : Nat) : String :=
  [ "Jan", "Feb", "Mar", "Apr", "May", "Jun",
    "Jul", "Aug", "Sep", "Oct", "Nov", "Dec" ].getD (m - 1) "Jan"

/-- Zero-pad a number to two digits. -/
def pad2 (n : Nat) : String :=
  if n < 10 then "0" ++ toString n else toString n

/-- Format a UTC timestamp per RFC 2822 the way
`OffsetDateTime::from(system_time).format(&Rfc2822)` does, e.g.
`Thu, 01 Jan 1970 00:00:00 +0000`. -/
def rfc2822Format (t : Time) : String :=
  let days := t / 86400
  let secs := t % 86400
  let ymd := civilFromDays days
  weekdayName days ++ ", " ++ pad2 ymd.2.2 ++ " " ++ monthName ymd.2.1 ++
    " " ++ toString ymd.1 ++ " " ++ pad2 (secs / 3600) ++ ":" ++
    pad2 (secs % 3600 / 60) ++ ":" ++ pad2 (secs % 60) ++ " +0000"

/-! ### Base64 and the etag function (`base64_blake3_body_etag.rs`) -/

/-- Standard base64 alphabet (RFC 4648, as used by `data_encoding::BASE64`). -/
def b64char (n : Nat) : Char :=
  "ABCDEFGHIJKLMNOPQRSTUVWXYZabcdefghijklmnopqrstuvwxyz0123456789+/".toList.getD n 'A'

/-- Base64-encode a byte sequence with `=` padding
(`data_encoding::BASE64.encode`). -/
def base64Encode : List Nat → String
  | [] => ""
  | [a] =>
    String.mk [b64char (a / 4), b64char (a % 4 * 16)] ++ "=="
  | [a, b] =>
    String.mk [b64char (a / 4), b64char (a % 4 * 16 + b / 16),
      b64char (b % 16 * 4)] ++ "="
  | a :: b :: c :: rest =>
    String.mk [b64char (a / 4), b64char (a % 4 * 16 + b / 16),
      b64char (b % 16 * 4 + c / 64), b64char (c % 64)] ++ base64Encode rest

/-- `base64_blake3_body_etag`: the etag header value is the base64-encoded
digest of the body bytes wrapped in double quotes.  The blake3 digest
itself lives in an external crate, so it is passed in as `hash`. -/
def base64_blake3_body_etag (hash : List Nat → List Nat)
    (body : List Nat) : String :=
  "\"" ++ base64Encode (hash body) ++ "\""

/-! ### Shared header construction (`set_response_headers`) -/

/-- Header maps are ordered lists of (lowercase name, value) pairs;
`append` in `http::HeaderMap` adds a pair at the end. -/
abbrev Headers := List (String × String)

/-- Fixed cache-control policy string appended by `set_response_headers`. -/
def cacheControlValue : String := "max-age=604800,stale-while-revalidate=86400"

/-- Ambient parameters of the provider: the table capacity `CAP`, the
external blake3 digest, and the variance headers contributed by
`SimpleEtagCacheKey::set_response_headers` (key-deriver code outside
`src/`, kept abstract). -/
structure Ctx where
  cap : Nat
  hash : List Nat → List Nat
  varianceHeaders : Headers

/-- `ConstLruProvider::set_response_headers`: append the etag value, the
fixed cache-control string, the RFC 2822 rendering of `last_modified`,
then let the key deriver append its variance headers. -/
def set_response_headers (ctx : Ctx) (headers : Headers)
    (etagVal : String) (lastModified : Time) : Headers :=
  headers ++ [("etag", etagVal), ("cache-control", cacheControlValue),
    ("last-modified", rfc2822Format lastModified)] ++ ctx.varianceHeaders

/-! ### The bounded LRU table

The `const_lru` crate backing the provider is a dependency whose code is
not in `src/`; it is modelled here from the Bounded LRU Table contract
of the spec (§4.1).  A table is a list of key/entry pairs kept in recency
order, most-recently-used first; the least-recently-used pair is the last
element. -/

/-- Table state of the `ConstLru`, most-recently-used pair first. -/
abbrev Table := List (Key × Entry)

/-- Entries of `t` whose key differs from `k`. -/
def removeKey (k : Key) (t : Table) : Table :=
  t.filter (fun p => p.1 ≠ k)

/-- Value stored at key `k`, ignoring recency order. -/
def findVal (k : Key) (t : Table) : Option Entry :=
  (t.find? (fun p => p.1 == k)).map Prod.snd

/-- Modelled from the spec: `ConstLru::get` (lookup) — "returns the entry
if present and marks it most-recently-used; otherwise returns nothing. No
side effect on absence." -/
def lruGet (k : Key) (t : Table) : Option Entry × Table :=
  match findVal k t with
  | none => (none, t)
  | some e => (some e, (k, e) :: removeKey k t)

/-- Modelled from the spec: `ConstLru::entry(key).or_insert_with` — "if
the key is present, marks it most-recently-used and returns its entry;
otherwise, if the table is at capacity, evicts the current
least-recently-used key/entry pair, then inserts a newly constructed
entry as most-recently-used and returns it." -/
def lruGetOrCreate (cap : Nat) (k : Key) (d : Entry) (t : Table) :
    Entry × Table :=
  match findVal k t with
  | some e => (e, (k, e) :: removeKey k t)
  | none =>
    if t.length < cap then (d, (k, d) :: t)
    else (d, (k, d) :: t.dropLast)

/-- Overwrite the entry stored at key `k` (the in-place mutation through
the `&mut` reference returned by `entry().or_insert_with`). -/
def lruSetVal (k : Key) (v : Entry) (t : Table) : Table :=
  t.map (fun p => if p.1 = k then (k, v) else p)

/-! ### Provider requests and responses -/

/-- Get request as the provider sees it: the derived cache key
(`calc_simple_etag_cache_key` is key-deriver code outside `src/`, so the
key accompanies the request as an opaque value), the values of the
`if-none-match` header in order (`none` for a value whose `to_str` fails,
i.e. non-visible-ASCII bytes), and an opaque identifier standing for the
rest of the request, which the provider returns untouched. -/
structure Request where
  key : Key
  ifNoneMatch : List (Option String)
  reqId : Nat
deriving DecidableEq, Repr

/-- `CacheGetResponseResult`: a hit carries the response headers to send,
a miss carries the derived key for the later `Put`. -/
inductive GetResult where
  | Hit (headers : Headers)
  | Miss (key : Key)
deriving DecidableEq, Repr

/-- `CacheGetResponse`: the original request handed back plus the result. -/
structure CacheGetResponse where
  req : Request
  result : GetResult
deriving DecidableEq, Repr

/-- Response handed to `Put`: original parts (status + headers) and the
body, which collects either to its bytes or to the body error `E`
(`BodyExt::collect` awaiting the full body). -/
structure Response (E : Type) where
  status : Nat
  headers : Headers
  body : Except E (List Nat)

/-- `ConstLruProviderError`: modelled from the spec — "a single
reportable error kind — failure to fully read/collect the response
body of a Put — wrapping the underlying source error" (`err.rs` is not under
`src/`; `ReadResBody` is the variant `on_put_request` constructs). -/
inductive ConstLruProviderError (E : Type) where
  | ReadResBody (e : E)
deriving DecidableEq, Repr

/-- Successful `Put` response: the original parts with updated headers
and the now-buffered body bytes. -/
structure PutResponse where
  status : Nat
  headers : Headers
  body : List Nat
deriving DecidableEq, Repr

/-! ### The provider operations (`on_get_request`, `on_put_request`) -/

variable {E : Type}

/-- Scan of the `if-none-match` values in `on_get_request`: skip values
whose `to_str` fails, return the first value string-equal to the cached
etag. -/
def findMatch (vals : List (Option String)) (cacheEtag : String) :
    Option String :=
  match vals with
  | [] => none
  | none :: rest => findMatch rest cacheEtag
  | some s :: rest =>
    if s = cacheEtag then some s else findMatch rest cacheEtag

/-- `ConstLruProvider::on_get_request`: look the derived key up in the
`ConstLru`; on absence answer `Miss(key)`; otherwise scan the
`if-none-match` values and answer `Hit` with freshly built headers on the
first exact match, else `Miss(key)`.  Returns the reply (always `Ok` —
the `Result` has the same error type as the one of `Put` but no error path exists)
together with the table after the lookup. -/
def on_get_request (ctx : Ctx) (t : Table) (req : Request) :
    Except (ConstLruProviderError E) CacheGetResponse × Table :=
  let key := req.key
  let l := lruGet key t
  let res : Except (ConstLruProviderError E) CacheGetResponse :=
    match l.1 with
    | none => .ok ⟨req, .Miss key⟩
    | some (cacheEtag, lastModified) =>
      match findMatch req.ifNoneMatch cacheEtag with
      | some etagVal =>
        .ok ⟨req, .Hit (set_response_headers ctx [] etagVal lastModified)⟩
      | none => .ok ⟨req, .Miss key⟩
  (res, l.2)

/-- `ConstLruProvider::on_put_request`: collect the body (propagating a
collection failure without touching the table), compute the etag,
fetch-or-create the entry with default `(etag, now)`, overwrite token and
timestamp only when the cached token differs, then rebuild the response
from the original parts with the decorated headers and buffered body.
`now` is the value `SystemTime::now()` returns during this call. -/
def on_put_request (ctx : Ctx) (now : Time) (t : Table) (key : Key)
    (resp : Response E) :
    Except (ConstLruProviderError E) PutResponse × Table :=
  match resp.body with
  | .error e => (.error (.ReadResBody e), t)
  | .ok bodyBytes =>
    let etagStr := base64_blake3_body_etag ctx.hash bodyBytes
    let c := lruGetOrCreate ctx.cap key (etagStr, now) t
    let currVal := c.1
    let t2 := if currVal.1 ≠ etagStr then lruSetVal key (etagStr, now) c.2
      else c.2
    let lastModified := if currVal.1 ≠ etagStr then now else currVal.2
    (.ok ⟨resp.status,
      set_response_headers ctx resp.headers etagStr lastModified,
      bodyBytes⟩, t2)

/-! ### The actor loop (`run`) -/

/-- Operation envelope variant drained by the actor loop: `run` matches
on `ConstLruProviderReq::Get`/`Put`.  A `put` carries the time
`SystemTime::now()` yields while it is processed. -/
inductive ProviderReq (E : Type) where
  | get (req : Request)
  | put (key : Key) (now : Time) (resp : Response E)

/-- Reply sent on the oneshot channel of an envelope
(`ConstLruProviderRes::Get`/`Put`, or the provider error). -/
inductive ProviderRes (E : Type) where
  | get (r : CacheGetResponse)
  | put (r : PutResponse)
  | err (e : ConstLruProviderError E)
deriving DecidableEq, Repr

/-- One iteration of the `run` loop body: dispatch the envelope to
`on_get_request` or `on_put_request` and package the reply. -/
def step (ctx : Ctx) (t : Table) : ProviderReq E → ProviderRes E × Table
  | .get req =>
    let r := on_get_request ctx t req
    (match r.1 with
     | .ok x => .get x
     | .error e => .err e, r.2)
  | .put key now resp =>
    let r := on_put_request ctx now t key resp
    (match r.1 with
     | .ok x => .put x
     | .error e => .err e, r.2)

/-- `ConstLruProvider::run`: drain the queue one envelope at a time in
arrival order, replying to each before dequeuing the next. -/
def runActor (ctx : Ctx) (t : Table) :
    List (ProviderReq E) → List (ProviderRes E) × Table
  | [] => ([], t)
  | op :: rest =>
    let s := step ctx t op
    let r := runActor ctx s.2 rest
    (s.1 :: r.1, r.2)

/-! ### Single-threaded reference model, written from the words of the spec

Used to compare the actor loop against "a single-threaded reference model
run over a recorded arrival order" (spec §8).  These definitions follow
the prose of spec §4.2, not the source. -/

/-- Reference Get of spec §4.2: look the key up; "if absent: respond
Miss(key)"; if present and "any value" of the conditional header equals
the stored token, respond Hit with headers carrying the stored token,
else Miss(key). -/
def specOnGet (ctx : Ctx) (t : Table) (req : Request) :
    CacheGetResponse × Table :=
  let l := lruGet req.key t
  match l.1 with
  | none => (⟨req, .Miss req.key⟩, l.2)
  | some (tok, ts) =>
    if req.ifNoneMatch.any (fun v => v == some tok) then
      (⟨req, .Hit (set_response_headers ctx [] tok ts)⟩, l.2)
    else
      (⟨req, .Miss req.key⟩, l.2)

/-- Reference Put of spec §4.2: collect the body, compute the token,
fetch-or-create the entry with default `(token, now)`; keep the entry
when its token already equals the new one, otherwise overwrite both
fields with the new token and `now`; attach the (possibly updated) token
and timestamp to the response headers. -/
def specOnPut (ctx : Ctx) (now : Time) (t : Table) (key : Key)
    (resp : Response E) :
    Except (ConstLruProviderError E) PutResponse × Table :=
  match resp.body with
  | .error e => (.error (.ReadResBody e), t)
  | .ok bytes =>
    let tok := base64_blake3_body_etag ctx.hash bytes
    let g := lruGetOrCreate ctx.cap key (tok, now) t
    let entry := if g.1.1 = tok then g.1 else (tok, now)
    (.ok ⟨resp.status, set_response_headers ctx resp.headers tok entry.2,
        bytes⟩,
     if g.1.1 = tok then g.2 else lruSetVal key (tok, now) g.2)

/-- One operation of the reference model. -/
def specStep (ctx : Ctx) (t : Table) : ProviderReq E → ProviderRes E × Table
  | .get req =>
    let r := specOnGet ctx t req
    (.get r.1, r.2)
  | .put key now resp =>
    let r := specOnPut ctx now t key resp
    (match r.1 with
     | .ok x => .put x
     | .error e => .err e, r.2)

/-- Reference model over a recorded arrival order: apply the operations
sequentially, collecting every reply and the final table. -/
def specRun (ctx : Ctx) (t : Table) :
    List (ProviderReq E) → List (ProviderRes E) × Table
  | [] => ([], t)
  | op :: rest =>
    let s := specStep ctx t op
    let r := specRun ctx s.2 rest
    (s.1 :: r.1, r.2)

/-! ### Auxiliary lemmas -/

theorem findMatch_of_mem {vals : List (Option String)} {tok : String}
    (h : some tok ∈ vals) : findMatch vals tok = some tok := by
  induction vals with
  | nil => simp at h
  | cons v rest ih =>
    rcases v with _ | s
    · have hm : some tok ∈ rest := by simpa using h
      simpa [findMatch] using ih hm
    · by_cases hs : s = tok
      · simp [findMatch, hs]
      · have hm : some tok ∈ rest := by
          rcases List.mem_cons.mp h with h1 | h1
          · exact absurd (Option.some.inj h1).symm hs
          · exact h1
        simp [findMatch, hs, ih hm]

theorem findMatch_of_not_mem {vals : List (Option String)} {tok : String}
    (h : some tok ∉ vals) : findMatch vals tok = none := by
  induction vals with
  | nil => rfl
  | cons v rest ih =>
    rcases v with _ | s
    · have hm : some tok ∉ rest := fun hc => h (List.mem_cons_of_mem _ hc)
      simpa [findMatch] using ih hm
    · have hs : s ≠ tok := by
        intro he; exact h (by simp [he])
      have hm : some tok ∉ rest := fun hc => h (List.mem_cons_of_mem _ hc)
      simp [findMatch, hs, ih hm]

theorem findMatch_some {vals : List (Option String)} {tok s : String}
    (h : findMatch vals tok = some s) : s = tok := by
  induction vals with
  | nil => simp [findMatch] at h
  | cons v rest ih =>
    rcases v with _ | w
    · exact ih (by simpa [findMatch] using h)
    · by_cases hw : w = tok
      · rw [findMatch, if_pos hw] at h
        exact (Option.some.inj h).symm.trans hw
      · exact ih (by rw [findMatch, if_neg hw] at h; exact h)

theorem any_beq_iff {vals : List (Option String)} {tok : String} :
    vals.any (fun v => v == some tok) = true ↔ some tok ∈ vals := by
  simp [List.any_eq_true]

theorem findVal_cons (k' : Key) (p : Key × Entry) (rest : Table) :
    findVal k' (p :: rest) =
      if p.1 = k' then some p.2 else findVal k' rest := by
  by_cases h : p.1 = k'
  · simp [findVal, List.find?_cons_of_pos, h]
  · simp [findVal, List.find?_cons_of_neg, h]

theorem removeKey_cons (k : Key) (p : Key × Entry) (rest : Table) :
    removeKey k (p :: rest) =
      if p.1 = k then removeKey k rest else p :: removeKey k rest := by
  by_cases h : p.1 = k <;> simp [removeKey, List.filter_cons, h]

theorem findVal_removeKey {k k' : Key} (h : k' ≠ k) (t : Table) :
    findVal k' (removeKey k t) = findVal k' t := by
  induction t with
  | nil => rfl
  | cons p rest ih =>
    rw [removeKey_cons]
    by_cases hp : p.1 = k
    · rw [if_pos hp, ih, findVal_cons,
        if_neg (by rw [hp]; exact fun hh => h hh.symm)]
    · rw [if_neg hp, findVal_cons, findVal_cons, ih]

theorem removeKey_length_lt {k : Key} {t : Table} {e : Entry}
    (h : findVal k t = some e) : (removeKey k t).length < t.length := by
  induction t with
  | nil => simp [findVal] at h
  | cons p rest ih =>
    rw [removeKey_cons]
    by_cases hp : p.1 = k
    · rw [if_pos hp]
      exact Nat.lt_succ_of_le (List.length_filter_le _ _)
    · rw [findVal_cons, if_neg hp] at h
      rw [if_neg hp]
      simpa using Nat.succ_lt_succ (ih h)

theorem lruGet_of_none {k : Key} {t : Table} (h : findVal k t = none) :
    lruGet k t = (none, t) := by
  simp [lruGet, h]

theorem lruGet_of_some {k : Key} {t : Table} {e : Entry}
    (h : findVal k t = some e) :
    lruGet k t = (some e, (k, e) :: removeKey k t) := by
  simp [lruGet, h]

theorem lruGet_length_le (k : Key) (t : Table) :
    ((lruGet k t).2).length ≤ t.length := by
  rcases h : findVal k t with _ | e
  · rw [lruGet_of_none h]
  · rw [lruGet_of_some h]
    have := removeKey_length_lt h
    simpa using this

theorem lruGetOrCreate_of_some {cap : Nat} {k : Key} {d e : Entry}
    {t : Table} (h : findVal k t = some e) :
    lruGetOrCreate cap k d t = (e, (k, e) :: removeKey k t) := by
  simp [lruGetOrCreate, h]

theorem lruGetOrCreate_of_none_lt {cap : Nat} {k : Key} {d : Entry}
    {t : Table} (h : findVal k t = none) (hl : t.length < cap) :
    lruGetOrCreate cap k d t = (d, (k, d) :: t) := by
  simp [lruGetOrCreate, h, hl]

theorem lruGetOrCreate_of_none_full {cap : Nat} {k : Key} {d : Entry}
    {t : Table} (h : findVal k t = none) (hl : ¬t.length < cap) :
    lruGetOrCreate cap k d t = (d, (k, d) :: t.dropLast) := by
  simp [lruGetOrCreate, h, hl]

theorem lruGetOrCreate_length {cap : Nat} (k : Key) (d : Entry) (t : Table)
    (hcap : 0 < cap) (hlen : t.length ≤ cap) :
    ((lruGetOrCreate cap k d t).2).length ≤ cap := by
  rcases h : findVal k t with _ | e
  · by_cases hl : t.length < cap
    · rw [lruGetOrCreate_of_none_lt h hl]
      simpa using hl
    · rw [lruGetOrCreate_of_none_full h hl]
      simp only [List.length_cons, List.length_dropLast]
      omega
  · rw [lruGetOrCreate_of_some h]
    have := removeKey_length_lt h
    simp only [List.length_cons]
    omega

theorem lruSetVal_length (k : Key) (v : Entry) (t : Table) :
    (lruSetVal k v t).length = t.length := by
  simp [lruSetVal]

theorem findVal_lruSetVal {k : Key} {v e : Entry} {t : Table}
    (h : findVal k t = some e) :
    findVal k (lruSetVal k v t) = some v := by
  induction t with
  | nil => simp [findVal] at h
  | cons p rest ih =>
    by_cases hp : p.1 = k
    · simp [lruSetVal, hp, findVal_cons]
    · rw [findVal_cons, if_neg hp] at h
      simpa [lruSetVal, findVal_cons, hp] using ih h

theorem lruSetVal_cons (k : Key) (v : Entry) (p : Key × Entry)
    (rest : Table) :
    lruSetVal k v (p :: rest) =
      (if p.1 = k then (k, v) else p) :: lruSetVal k v rest := by
  simp [lruSetVal]

theorem lruSetVal_removeKey (k : Key) (v : Entry) (t : Table) :
    lruSetVal k v (removeKey k t) = removeKey k t := by
  induction t with
  | nil => rfl
  | cons p rest ih =>
    rw [removeKey_cons]
    by_cases hp : p.1 = k
    · rw [if_pos hp]; exact ih
    · rw [if_neg hp, lruSetVal_cons, if_neg hp, ih]

/-! ### Characterizations of the provider operations -/

theorem on_get_of_absent {ctx : Ctx} {t : Table} {req : Request}
    (h : findVal req.key t = none) :
    on_get_request (E := E) ctx t req = (.ok ⟨req, .Miss req.key⟩, t) := by
  simp [on_get_request, lruGet_of_none h]

theorem on_get_of_match {ctx : Ctx} {t : Table} {req : Request}
    {tok : String} {ts : Time} (h : findVal req.key t = some (tok, ts))
    (hm : some tok ∈ req.ifNoneMatch) :
    on_get_request (E := E) ctx t req =
      (.ok ⟨req, .Hit (set_response_headers ctx [] tok ts)⟩,
       (req.key, (tok, ts)) :: removeKey req.key t) := by
  simp [on_get_request, lruGet_of_some h, findMatch_of_mem hm]

theorem on_get_of_no_match {ctx : Ctx} {t : Table} {req : Request}
    {tok : String} {ts : Time} (h : findVal req.key t = some (tok, ts))
    (hm : some tok ∉ req.ifNoneMatch) :
    on_get_request (E := E) ctx t req =
      (.ok ⟨req, .Miss req.key⟩,
       (req.key, (tok, ts)) :: removeKey req.key t) := by
  simp [on_get_request, lruGet_of_some h, findMatch_of_not_mem hm]

theorem on_put_of_err {ctx : Ctx} {now : Time} {t : Table} {key : Key}
    {resp : Response E} {e : E} (h : resp.body = .error e) :
    on_put_request ctx now t key resp = (.error (.ReadResBody e), t) := by
  simp [on_put_request, h]

theorem on_put_existing_same {ctx : Ctx} {now : Time} {t : Table}
    {key : Key} {resp : Response E} {bytes : List Nat} {tok : String}
    {ts : Time} (hb : resp.body = .ok bytes)
    (h : findVal key t = some (tok, ts))
    (he : base64_blake3_body_etag ctx.hash bytes = tok) :
    on_put_request ctx now t key resp =
      (.ok ⟨resp.status, set_response_headers ctx resp.headers tok ts,
          bytes⟩,
       (key, (tok, ts)) :: removeKey key t) := by
  simp [on_put_request, hb, lruGetOrCreate_of_some h, he]

theorem on_put_existing_diff {ctx : Ctx} {now : Time} {t : Table}
    {key : Key} {resp : Response E} {bytes : List Nat} {tok : String}
    {ts : Time} (hb : resp.body = .ok bytes)
    (h : findVal key t = some (tok, ts))
    (hne : base64_blake3_body_etag ctx.hash bytes ≠ tok) :
    on_put_request ctx now t key resp =
      (.ok ⟨resp.status,
          set_response_headers ctx resp.headers
            (base64_blake3_body_etag ctx.hash bytes) now, bytes⟩,
       (key, (base64_blake3_body_etag ctx.hash bytes, now))
         :: removeKey key t) := by
  have hs : tok ≠ base64_blake3_body_etag ctx.hash bytes := fun hc => hne hc.symm
  simp only [on_put_request, hb, lruGetOrCreate_of_some h]
  simp [hs, lruSetVal_cons, lruSetVal_removeKey]

theorem on_put_absent_room {ctx : Ctx} {now : Time} {t : Table} {key : Key}
    {resp : Response E} {bytes : List Nat} (hb : resp.body = .ok bytes)
    (h : findVal key t = none) (hl : t.length < ctx.cap) :
    on_put_request ctx now t key resp =
      (.ok ⟨resp.status,
          set_response_headers ctx resp.headers
            (base64_blake3_body_etag ctx.hash bytes) now, bytes⟩,
       (key, (base64_blake3_body_etag ctx.hash bytes, now)) :: t) := by
  simp [on_put_request, hb, lruGetOrCreate_of_none_lt h hl]

theorem on_put_absent_full {ctx : Ctx} {now : Time} {t : Table} {key : Key}
    {resp : Response E} {bytes : List Nat} (hb : resp.body = .ok bytes)
    (h : findVal key t = none) (hl : ¬t.length < ctx.cap) :
    on_put_request ctx now t key resp =
      (.ok ⟨resp.status,
          set_response_headers ctx resp.headers
            (base64_blake3_body_etag ctx.hash bytes) now, bytes⟩,
       (key, (base64_blake3_body_etag ctx.hash bytes, now))
         :: t.dropLast) := by
  simp [on_put_request, hb, lruGetOrCreate_of_none_full h hl]

/-- Successful put, uniform shape: the table ends with the computed etag
stored under the key at some timestamp, and the reply carries the
original parts with the decorated headers and the buffered body. -/
theorem on_put_ok {ctx : Ctx} {now : Time} {t : Table} {key : Key}
    {resp : Response E} {bytes : List Nat} (hb : resp.body = .ok bytes) :
    ∃ ts : Time,
      findVal key ((on_put_request ctx now t key resp).2)
          = some (base64_blake3_body_etag ctx.hash bytes, ts) ∧
      (on_put_request ctx now t key resp).1 = .ok
        ⟨resp.status,
         set_response_headers ctx resp.headers
           (base64_blake3_body_etag ctx.hash bytes) ts,
         bytes⟩ := by
  rcases hfv : findVal key t with _ | ⟨tok, ts0⟩
  · by_cases hl : t.length < ctx.cap
    · exact ⟨now, by rw [on_put_absent_room hb hfv hl]; simp [findVal_cons],
        by rw [on_put_absent_room hb hfv hl]⟩
    · exact ⟨now, by rw [on_put_absent_full hb hfv hl]; simp [findVal_cons],
        by rw [on_put_absent_full hb hfv hl]⟩
  · by_cases he : base64_blake3_body_etag ctx.hash bytes = tok
    · refine ⟨ts0, ?_, ?_⟩
      · rw [on_put_existing_same hb hfv he, findVal_cons]
        simp [he]
      · rw [on_put_existing_same hb hfv he, he]
    · refine ⟨now, ?_, ?_⟩
      · rw [on_put_existing_diff hb hfv he, findVal_cons]
        simp
      · rw [on_put_existing_diff hb hfv he]

/-! ### Length invariant across the actor loop -/

theorem step_length_le (ctx : Ctx) (t : Table) (op : ProviderReq E)
    (hcap : 0 < ctx.cap) (h : t.length ≤ ctx.cap) :
    ((step ctx t op).2).length ≤ ctx.cap := by
  cases op with
  | get req =>
    show ((lruGet req.key t).2).length ≤ ctx.cap
    exact le_trans (lruGet_length_le req.key t) h
  | put key now resp =>
    show ((on_put_request ctx now t key resp).2).length ≤ ctx.cap
    rcases hb : resp.body with e | bytes
    · rw [on_put_of_err hb]; exact h
    · rcases hfv : findVal key t with _ | ⟨tok, ts0⟩
      · by_cases hl : t.length < ctx.cap
        · rw [on_put_absent_room hb hfv hl]
          simpa using hl
        · rw [on_put_absent_full hb hfv hl]
          simp only [List.length_cons, List.length_dropLast]
          omega
      · by_cases he : base64_blake3_body_etag ctx.hash bytes = tok
        · rw [on_put_existing_same hb hfv he]
          have := removeKey_length_lt hfv
          simp only [List.length_cons]
          omega
        · rw [on_put_existing_diff hb hfv he]
          have := removeKey_length_lt hfv
          simp only [List.length_cons]
          omega

theorem runActor_length (ctx : Ctx) (hcap : 0 < ctx.cap) :
    ∀ (ops : List (ProviderReq E)) (t : Table), t.length ≤ ctx.cap →
      ((runActor ctx t ops).2).length ≤ ctx.cap := by
  intro ops
  induction ops with
  | nil => intro t h; simpa [runActor] using h
  | cons op rest ih =>
    intro t h
    simp only [runActor]
    exact ih _ (step_length_le ctx t op hcap h)

/-! ### Agreement of the actor step with the reference model -/

theorem step_eq_specStep (ctx : Ctx) (t : Table) (op : ProviderReq E) :
    step ctx t op = specStep ctx t op := by
  cases op with
  | get req =>
    rcases hfv : findVal req.key t with _ | ⟨tok, ts⟩
    · simp [step, specStep, on_get_of_absent hfv, specOnGet,
        lruGet_of_none hfv]
    · by_cases hm : some tok ∈ req.ifNoneMatch
      · have hany : req.ifNoneMatch.any (fun v => v == some tok) = true :=
          any_beq_iff.mpr hm
        simp [step, specStep, on_get_of_match hfv hm, specOnGet,
          lruGet_of_some hfv, hany]
      · have hany : req.ifNoneMatch.any (fun v => v == some tok) = false :=
          by
            rcases hb : req.ifNoneMatch.any (fun v => v == some tok) with _ | _
            · rfl
            · exact absurd (any_beq_iff.mp hb) hm
        simp [step, specStep, on_get_of_no_match hfv hm, specOnGet,
          lruGet_of_some hfv, hany]
  | put key now resp =>
    rcases hb : resp.body with e | bytes
    · simp [step, specStep, on_put_of_err hb, specOnPut, hb]
    · rcases hfv : findVal key t with _ | ⟨tok, ts0⟩
      · by_cases hl : t.length < ctx.cap
        · simp [step, specStep, on_put_absent_room hb hfv hl, specOnPut,
            hb, lruGetOrCreate_of_none_lt hfv hl]
        · simp [step, specStep, on_put_absent_full hb hfv hl, specOnPut,
            hb, lruGetOrCreate_of_none_full hfv hl]
      · by_cases he : base64_blake3_body_etag ctx.hash bytes = tok
        · simp [step, specStep, on_put_existing_same hb hfv he, specOnPut,
            hb, lruGetOrCreate_of_some hfv, he]
        · have hs : ¬tok = base64_blake3_body_etag ctx.hash bytes :=
            fun hc => he hc.symm
          simp [step, specStep, on_put_existing_diff hb hfv he, specOnPut,
            hb, lruGetOrCreate_of_some hfv, hs, lruSetVal_cons,
            lruSetVal_removeKey]

/-! ### Concrete fixtures used by the witnesses -/

/-- Concrete context: capacity 2, identity digest, one variance header. -/
def ctxW : Ctx := ⟨2, fun l => l, [("x-vary-by", "accept")]⟩

/-- Etag of body `[1, 2, 3]` under the identity digest. -/
def tokW : String := "\"AQID\""

/-- Etag of body `[9]` under the identity digest. -/
def tok9W : String := "\"CQ==\""

/-- Table holding key 1 with token `tokW` set at time 100. -/
def tW : Table := [(1, (tokW, 100))]

/-- Table at capacity 2: keys 1 (MRU) and 2 (LRU). -/
def tFullW : Table := [(1, (tokW, 100)), (2, (tok9W, 50))]

/-- Get request for key 1 whose if-none-match value matches `tokW`. -/
def reqW : Request := ⟨1, [some tokW], 0⟩

/-- Get request for the never-put key 2. -/
def reqMissW : Request := ⟨2, [], 1⟩

/-- Get request for key 1 with a non-matching value and an invalid one. -/
def reqNoMatchW : Request := ⟨1, [none, some "\"zzz\""], 2⟩

/-- Response whose body `[1, 2, 3]` collects successfully. -/
def respW : Response Unit := ⟨200, [("content-type", "text/plain")], .ok [1, 2, 3]⟩

/-- Response whose body `[9]` collects successfully. -/
def resp9W : Response Unit := ⟨200, [], .ok [9]⟩

/-- Response whose body fails to collect. -/
def respErrW : Response Unit := ⟨500, [], .error ()⟩

/-- Three inserts (the third at capacity) followed by a get. -/
def opsW : List (ProviderReq Unit) :=
  [.put 1 5 respW, .put 2 6 resp9W, .put 3 7 respW, .get reqW]

/-- Headers the hit path builds for `reqW` against `tW`. -/
def hdrsW : Headers := set_response_headers ctxW [] tokW 100

/-- Reply of a put of `respW` on key 1 against `tW` (matching token, so
the stored timestamp 100 is kept). -/
def putRespW : PutResponse :=
  ⟨200, set_response_headers ctxW respW.headers tokW 100, [1, 2, 3]⟩

/-! ### The claims -/

/-- C1: a Get whose derived key is cached and one of whose if-none-match
values equals the stored token (case-sensitively, quotes included)
replies Hit with headers containing the stored token, the fixed
cache-control policy string, and the stored timestamp as an HTTP date. -/
theorem get_hit_on_exact_match {E : Type} (ctx : Ctx) (t : Table)
    (req : Request) (tok : String) (ts : Time)
    (hentry : findVal req.key t = some (tok, ts))
    (hmatch : some tok ∈ req.ifNoneMatch) :
    ∃ hdrs : Headers,
      (on_get_request (E := E) ctx t req).1 = .ok ⟨req, .Hit hdrs⟩ ∧
      ("etag", tok) ∈ hdrs ∧
      ("cache-control", cacheControlValue) ∈ hdrs ∧
      ("last-modified", rfc2822Format ts) ∈ hdrs := by
  refine ⟨set_response_headers ctx [] tok ts, ?_, ?_, ?_, ?_⟩
  · rw [on_get_of_match hentry hmatch]
  · simp [set_response_headers]
  · simp [set_response_headers]
  · simp [set_response_headers]

theorem get_hit_on_exact_match_witness :
    (findVal reqW.key tW = some (tokW, 100)) ∧
    (some tokW ∈ reqW.ifNoneMatch) ∧
    ∃ hdrs : Headers,
      (on_get_request (E := Unit) ctxW tW reqW).1 = .ok ⟨reqW, .Hit hdrs⟩ ∧
      ("etag", tokW) ∈ hdrs ∧
      ("cache-control", cacheControlValue) ∈ hdrs ∧
      ("last-modified", rfc2822Format 100) ∈ hdrs :=
  ⟨by decide, by decide,
   get_hit_on_exact_match ctxW tW reqW tokW 100 (by decide) (by decide)⟩

/-- C2: a Get replies Miss with the derived key when the key has no
entry, and also when an entry exists but no valid if-none-match value
equals the stored token (in particular when the header is absent). -/
theorem get_miss_semantics {E : Type} (ctx : Ctx) (t : Table)
    (req : Request) :
    (findVal req.key t = none →
      (on_get_request (E := E) ctx t req).1 = .ok ⟨req, .Miss req.key⟩) ∧
    (∀ (tok : String) (ts : Time), findVal req.key t = some (tok, ts) →
      some tok ∉ req.ifNoneMatch →
      (on_get_request (E := E) ctx t req).1 = .ok ⟨req, .Miss req.key⟩) := by
  constructor
  · intro h
    rw [on_get_of_absent h]
  · intro tok ts h hm
    rw [on_get_of_no_match h hm]

theorem get_miss_semantics_witness :
    (findVal reqMissW.key tW = none) ∧
    ((on_get_request (E := Unit) ctxW tW reqMissW).1
        = .ok ⟨reqMissW, .Miss reqMissW.key⟩) ∧
    (findVal reqNoMatchW.key tW = some (tokW, 100)) ∧
    (some tokW ∉ reqNoMatchW.ifNoneMatch) ∧
    ((on_get_request (E := Unit) ctxW tW reqNoMatchW).1
        = .ok ⟨reqNoMatchW, .Miss reqNoMatchW.key⟩) :=
  ⟨by decide, (get_miss_semantics ctxW tW reqMissW).1 (by decide),
   by decide, by decide,
   (get_miss_semantics ctxW tW reqNoMatchW).2 tokW 100 (by decide)
     (by decide)⟩

/-- C3: a Put on a key that already has an entry leaves both the token
and the timestamp untouched when the newly computed token equals the
stored one, and overwrites both (the timestamp with `now`) when it
differs. -/
theorem put_idempotent_update {E : Type} (ctx : Ctx) (now : Time)
    (t : Table) (key : Key) (resp : Response E) (bytes : List Nat)
    (tok : String) (ts : Time) (hb : resp.body = .ok bytes)
    (hentry : findVal key t = some (tok, ts)) :
    (base64_blake3_body_etag ctx.hash bytes = tok →
      findVal key ((on_put_request ctx now t key resp).2)
        = some (tok, ts)) ∧
    (base64_blake3_body_etag ctx.hash bytes ≠ tok →
      findVal key ((on_put_request ctx now t key resp).2)
        = some (base64_blake3_body_etag ctx.hash bytes, now)) := by
  constructor
  · intro he
    rw [on_put_existing_same hb hentry he, findVal_cons]
    simp
  · intro hne
    rw [on_put_existing_diff hb hentry hne, findVal_cons]
    simp

theorem put_idempotent_update_witness :
    (respW.body = Except.ok [1, 2, 3]) ∧
    (findVal 1 tW = some (tokW, 100)) ∧
    (base64_blake3_body_etag ctxW.hash [1, 2, 3] = tokW) ∧
    (findVal 1 ((on_put_request ctxW 999 tW 1 respW).2)
        = some (tokW, 100)) ∧
    (resp9W.body = Except.ok [9]) ∧
    (base64_blake3_body_etag ctxW.hash [9] ≠ tokW) ∧
    (findVal 1 ((on_put_request ctxW 999 tW 1 resp9W).2)
        = some (base64_blake3_body_etag ctxW.hash [9], 999)) :=
  ⟨rfl, by decide, by decide,
   (put_idempotent_update ctxW 999 tW 1 respW [1, 2, 3] tokW 100 rfl
     (by decide)).1 (by decide),
   rfl, by decide,
   (put_idempotent_update ctxW 999 tW 1 resp9W [9] tokW 100 rfl
     (by decide)).2 (by decide)⟩

/-- C4: starting empty, the table size never exceeds the capacity over
any operation sequence; a successful lookup and a successful put both
leave the accessed key most-recently-used (at the head of the recency
order); and an insert at capacity evicts exactly the final —
least-recently-accessed — key/entry pair. -/
theorem lru_bounded_and_eviction {E : Type} (ctx : Ctx)
    (hcap : 0 < ctx.cap) :
    (∀ ops : List (ProviderReq E),
      ((runActor ctx [] ops).2).length ≤ ctx.cap) ∧
    (∀ (t : Table) (k : Key) (e : Entry), findVal k t = some e →
      ((lruGet k t).2).head? = some (k, e)) ∧
    (∀ (t : Table) (k : Key) (now : Time) (resp : Response E)
        (bytes : List Nat), resp.body = .ok bytes →
      ∃ e : Entry,
        ((on_put_request ctx now t k resp).2).head? = some (k, e)) ∧
    (∀ (t : Table) (k : Key) (d : Entry), findVal k t = none →
      t.length = ctx.cap →
      lruGetOrCreate ctx.cap k d t = (d, (k, d) :: t.dropLast)) := by
  refine ⟨?_, ?_, ?_, ?_⟩
  · intro ops
    exact runActor_length ctx hcap ops [] (by simp)
  · intro t k e h
    rw [lruGet_of_some h]
    rfl
  · intro t k now resp bytes hb
    rcases hfv : findVal k t with _ | ⟨tok, ts0⟩
    · by_cases hl : t.length < ctx.cap
      · exact ⟨_, by rw [on_put_absent_room hb hfv hl]; rfl⟩
      · exact ⟨_, by rw [on_put_absent_full hb hfv hl]; rfl⟩
    · by_cases he : base64_blake3_body_etag ctx.hash bytes = tok
      · exact ⟨_, by rw [on_put_existing_same hb hfv he]; rfl⟩
      · exact ⟨_, by rw [on_put_existing_diff hb hfv he]; rfl⟩
  · intro t k d h hlen
    exact lruGetOrCreate_of_none_full h (by omega)

theorem lru_bounded_and_eviction_witness :
    (0 < ctxW.cap) ∧
    (((runActor ctxW [] opsW).2).length ≤ ctxW.cap) ∧
    (((lruGet 1 tW).2).head? = some (1, (tokW, 100))) ∧
    (∃ e : Entry,
      ((on_put_request ctxW 5 tW 1 respW).2).head? = some (1, e)) ∧
    (lruGetOrCreate ctxW.cap 3 (tok9W, 7) tFullW
        = ((tok9W, 7), (3, (tok9W, 7)) :: tFullW.dropLast)) :=
  ⟨by decide,
   (lru_bounded_and_eviction (E := Unit) ctxW (by decide)).1 opsW,
   (lru_bounded_and_eviction (E := Unit) ctxW (by decide)).2.1 tW 1
     (tokW, 100) (by decide),
   (lru_bounded_and_eviction (E := Unit) ctxW (by decide)).2.2.1 tW 1 5
     respW [1, 2, 3] rfl,
   (lru_bounded_and_eviction (E := Unit) ctxW (by decide)).2.2.2 tFullW 3
     (tok9W, 7) (by decide) (by decide)⟩

/-- C5: Get never returns an error; the only error a Put can return is
`ReadResBody` wrapping the error of the body source, and such a failing Put
leaves the table completely unchanged. -/
theorem provider_error_surface {E : Type} (ctx : Ctx) :
    (∀ (t : Table) (req : Request),
      ∃ r, (on_get_request (E := E) ctx t req).1 = .ok r) ∧
    (∀ (now : Time) (t : Table) (key : Key) (resp : Response E)
        (err : ConstLruProviderError E),
      (on_put_request ctx now t key resp).1 = .error err →
      ∃ eb : E, resp.body = .error eb ∧ err = .ReadResBody eb ∧
        (on_put_request ctx now t key resp).2 = t) := by
  constructor
  · intro t req
    rcases hfv : findVal req.key t with _ | ⟨tok, ts⟩
    · exact ⟨_, by rw [on_get_of_absent hfv]⟩
    · by_cases hm : some tok ∈ req.ifNoneMatch
      · exact ⟨_, by rw [on_get_of_match hfv hm]⟩
      · exact ⟨_, by rw [on_get_of_no_match hfv hm]⟩
  · intro now t key resp err herr
    rcases hb : resp.body with e | bytes
    · refine ⟨e, rfl, ?_, ?_⟩
      · rw [on_put_of_err hb] at herr
        exact (Except.error.inj herr).symm
      · rw [on_put_of_err hb]
    · obtain ⟨ts, -, hok⟩ := on_put_ok hb
      rw [hok] at herr
      exact Except.noConfusion herr

theorem provider_error_surface_witness :
    (∃ r, (on_get_request (E := Unit) ctxW tW reqW).1 = .ok r) ∧
    ((on_put_request ctxW 999 tW 1 respErrW).1
        = .error (.ReadResBody ())) ∧
    (∃ eb : Unit, respErrW.body = .error eb ∧
      (ConstLruProviderError.ReadResBody () : ConstLruProviderError Unit)
        = .ReadResBody eb ∧
      (on_put_request ctxW 999 tW 1 respErrW).2 = tW) :=
  ⟨(provider_error_surface (E := Unit) ctxW).1 tW reqW, rfl,
   (provider_error_surface (E := Unit) ctxW).2 999 tW 1 respErrW
     (.ReadResBody ()) rfl⟩

/-- C6: a successful Put replies with the response rebuilt from its
original parts and buffered body, its headers extended with the quoted
token as validator, the fixed cache-control string, the formatted
timestamp of the entry as last-modified, and the variance headers. -/
theorem put_response_reconstruction {E : Type} (ctx : Ctx) (now : Time)
    (t : Table) (key : Key) (resp : Response E) (bytes : List Nat)
    (hb : resp.body = .ok bytes) :
    ∃ ts : Time,
      findVal key ((on_put_request ctx now t key resp).2)
          = some (base64_blake3_body_etag ctx.hash bytes, ts) ∧
      (on_put_request ctx now t key resp).1 = .ok
        ⟨resp.status,
         resp.headers ++
           [("etag", base64_blake3_body_etag ctx.hash bytes),
            ("cache-control", cacheControlValue),
            ("last-modified", rfc2822Format ts)] ++ ctx.varianceHeaders,
         bytes⟩ := by
  obtain ⟨ts, h1, h2⟩ := on_put_ok hb
  exact ⟨ts, h1, by rw [h2]; rfl⟩

theorem put_response_reconstruction_witness :
    (respW.body = Except.ok [1, 2, 3]) ∧
    ∃ ts : Time,
      findVal 1 ((on_put_request ctxW 999 tW 1 respW).2)
          = some (base64_blake3_body_etag ctxW.hash [1, 2, 3], ts) ∧
      (on_put_request ctxW 999 tW 1 respW).1 = .ok
        ⟨respW.status,
         respW.headers ++
           [("etag", base64_blake3_body_etag ctxW.hash [1, 2, 3]),
            ("cache-control", cacheControlValue),
            ("last-modified", rfc2822Format ts)] ++ ctxW.varianceHeaders,
         [1, 2, 3]⟩ :=
  ⟨rfl, put_response_reconstruction ctxW 999 tW 1 respW [1, 2, 3] rfl⟩

/-- C7: on both the Hit and the Put reply paths the last-modified header
value is the stored timestamp of the entry rendered by the RFC 2822 date
formatter. -/
theorem last_modified_from_entry {E : Type} (ctx : Ctx) :
    (∀ (t : Table) (req : Request) (tok : String) (ts : Time)
        (hdrs : Headers), findVal req.key t = some (tok, ts) →
      (on_get_request (E := E) ctx t req).1 = .ok ⟨req, .Hit hdrs⟩ →
      ("last-modified", rfc2822Format ts) ∈ hdrs) ∧
    (∀ (now : Time) (t : Table) (key : Key) (resp : Response E)
        (r : PutResponse),
      (on_put_request ctx now t key resp).1 = .ok r →
      ∃ tok ts, findVal key ((on_put_request ctx now t key resp).2)
          = some (tok, ts) ∧
        ("last-modified", rfc2822Format ts) ∈ r.headers) := by
  constructor
  · intro t req tok ts hdrs hfv hres
    by_cases hm : some tok ∈ req.ifNoneMatch
    · rw [on_get_of_match hfv hm] at hres
      simp only [Except.ok.injEq, CacheGetResponse.mk.injEq,
        GetResult.Hit.injEq, true_and] at hres
      subst hres
      simp [set_response_headers]
    · rw [on_get_of_no_match hfv hm] at hres
      simp at hres
  · intro now t key resp r hres
    rcases hb : resp.body with e | bytes
    · rw [on_put_of_err hb] at hres
      exact Except.noConfusion hres
    · obtain ⟨ts, h1, h2⟩ := on_put_ok hb
      rw [h2] at hres
      simp only [Except.ok.injEq] at hres
      subst hres
      exact ⟨_, ts, h1, by simp [set_response_headers]⟩

theorem last_modified_from_entry_witness :
    (findVal reqW.key tW = some (tokW, 100)) ∧
    ((on_get_request (E := Unit) ctxW tW reqW).1
        = .ok ⟨reqW, .Hit hdrsW⟩) ∧
    (("last-modified", rfc2822Format 100) ∈ hdrsW) ∧
    ((on_put_request ctxW 999 tW 1 respW).1 = .ok putRespW) ∧
    (∃ tok ts, findVal 1 ((on_put_request ctxW 999 tW 1 respW).2)
        = some (tok, ts) ∧
      ("last-modified", rfc2822Format ts) ∈ putRespW.headers) :=
  ⟨by decide, rfl,
   (last_modified_from_entry (E := Unit) ctxW).1 tW reqW tokW 100 hdrsW
     (by decide) rfl,
   rfl,
   (last_modified_from_entry (E := Unit) ctxW).2 999 tW 1 respW putRespW
     rfl⟩

/-- C8: the token a Put stores and emits is the digest of exactly the
collected body bytes, base64-encoded and wrapped in double quotes. -/
theorem put_token_format {E : Type} (ctx : Ctx) (now : Time) (t : Table)
    (key : Key) (resp : Response E) (bytes : List Nat)
    (hb : resp.body = .ok bytes) :
    (base64_blake3_body_etag ctx.hash bytes
        = "\"" ++ base64Encode (ctx.hash bytes) ++ "\"") ∧
    (∃ ts, findVal key ((on_put_request ctx now t key resp).2)
        = some ("\"" ++ base64Encode (ctx.hash bytes) ++ "\"", ts)) ∧
    (∃ r, (on_put_request ctx now t key resp).1 = .ok r ∧
      ("etag", "\"" ++ base64Encode (ctx.hash bytes) ++ "\"")
        ∈ r.headers) := by
  obtain ⟨ts, h1, h2⟩ := on_put_ok hb
  refine ⟨rfl, ⟨ts, h1⟩, ⟨_, h2, ?_⟩⟩
  simp [set_response_headers, base64_blake3_body_etag]

theorem put_token_format_witness :
    (respW.body = Except.ok [1, 2, 3]) ∧
    ((base64_blake3_body_etag ctxW.hash [1, 2, 3]
        = "\"" ++ base64Encode (ctxW.hash [1, 2, 3]) ++ "\"") ∧
    (∃ ts, findVal 1 ((on_put_request ctxW 999 tW 1 respW).2)
        = some ("\"" ++ base64Encode (ctxW.hash [1, 2, 3]) ++ "\"", ts)) ∧
    (∃ r, (on_put_request ctxW 999 tW 1 respW).1 = .ok r ∧
      ("etag", "\"" ++ base64Encode (ctxW.hash [1, 2, 3]) ++ "\"")
        ∈ r.headers)) :=
  ⟨rfl, put_token_format ctxW 999 tW 1 respW [1, 2, 3] rfl⟩

/-- C9: the actor applies all operations in their arrival order at the
queue, one at a time; every reply and the final table agree with the
single-threaded reference model run over that order. -/
theorem actor_matches_reference_model {E : Type} (ctx : Ctx) (t : Table)
    (ops : List (ProviderReq E)) :
    runActor ctx t ops = specRun ctx t ops := by
  induction ops generalizing t with
  | nil => rfl
  | cons op rest ih => simp only [runActor, specRun, step_eq_specStep, ih]

/-- C10: a Get never creates, removes, or rewrites any stored entry —
every key maps to the same (token, timestamp) value before and after; at
most the recency order changes. -/
theorem get_preserves_entries {E : Type} (ctx : Ctx) (t : Table)
    (req : Request) (k : Key) :
    findVal k ((on_get_request (E := E) ctx t req).2) = findVal k t := by
  show findVal k (lruGet req.key t).2 = findVal k t
  rcases hfv : findVal req.key t with _ | e
  · rw [lruGet_of_none hfv]
  · rw [lruGet_of_some hfv, findVal_cons]
    by_cases hk : req.key = k
    · rw [if_pos hk]
      subst hk
      exact hfv.symm
    · rw [if_neg hk]
      exact findVal_removeKey (fun hc => hk hc.symm) t

end TowerEtagCache
